import Mathlib

/-!
Verification development for the `unravel` diffusion-MRI toolkit
(`TIME/utils.py` and `src/unravel/viz.py`).

The numeric values flowing through the code are IEEE floating-point
numbers.  We embed them as exact rationals extended with the IEEE
special values `+inf`, `-inf` and `nan` (type `NFloat`), so that the
NaN-producing divisions (`0/0`) and the NaN-coercion steps of the code
are modelled faithfully, while ordinary arithmetic is exact.

Genuinely external numerics are abstracted as parameters:
  * the eigensolver `np.linalg.eig` (parameter `eig`),
  * `np.sqrt` (parameter `sqrt`, constrained only where a claim needs
    its NaN-propagation behaviour),
  * `scipy.ndimage.zoom` (parameter `zoomF`),
  * the three angular-weighting kernels of `unravel.core` and the
    trigonometric functions used to build the angular grid.
These are exactly the collaborators the code imports from outside the
two source files under verification.
-/

/-- Extended rational: an exact model of the IEEE float values that the
code manipulates (finite value, infinities, NaN). -/
inductive NFloat where
  | num (q : ℚ)
  | pinf
  | ninf
  | nan
deriving DecidableEq, Repr

namespace NFloat

/-- IEEE addition. -/
def nadd : NFloat → NFloat → NFloat
  | nan, _ => nan
  | _, nan => nan
  | num a, num b => num (a + b)
  | pinf, ninf => nan
  | ninf, pinf => nan
  | pinf, _ => pinf
  | _, pinf => pinf
  | ninf, _ => ninf
  | _, ninf => ninf

/-- IEEE negation. -/
def nneg : NFloat → NFloat
  | nan => nan
  | pinf => ninf
  | ninf => pinf
  | num a => num (-a)

/-- IEEE subtraction. -/
def nsub (a b : NFloat) : NFloat := nadd a (nneg b)

/-- IEEE multiplication. -/
def nmul : NFloat → NFloat → NFloat
  | nan, _ => nan
  | _, nan => nan
  | num a, num b => num (a * b)
  | pinf, num b => if b = 0 then nan else if 0 < b then pinf else ninf
  | num a, pinf => if a = 0 then nan else if 0 < a then pinf else ninf
  | ninf, num b => if b = 0 then nan else if 0 < b then ninf else pinf
  | num a, ninf => if a = 0 then nan else if 0 < a then ninf else pinf
  | pinf, pinf => pinf
  | ninf, ninf => pinf
  | pinf, ninf => ninf
  | ninf, pinf => ninf

/-- IEEE division, as numpy performs it with warnings suppressed:
`0/0 = nan`, `a/0 = ±inf` for `a ≠ 0`. -/
def ndiv : NFloat → NFloat → NFloat
  | nan, _ => nan
  | _, nan => nan
  | num a, num b =>
      if b = 0 then (if a = 0 then nan else if 0 < a then pinf else ninf)
      else num (a / b)
  | num _, pinf => num 0
  | num _, ninf => num 0
  | pinf, num b => if 0 ≤ b then pinf else ninf
  | ninf, num b => if 0 ≤ b then ninf else pinf
  | pinf, _ => nan
  | ninf, _ => nan

/-- Python `np.power(x, 2)`: elementwise square. -/
def npow2 (a : NFloat) : NFloat := nmul a a

/-- Python `np.isnan`. -/
def isnan : NFloat → Bool
  | nan => true
  | _ => false

/-- The comparison key used by numpy's ascending sort on floats:
ordinary order on finite values and infinities, NaN sorted last. -/
def keyLe : NFloat → NFloat → Bool
  | _, nan => true
  | nan, _ => false
  | ninf, _ => true
  | _, ninf => false
  | num a, num b => decide (a ≤ b)
  | num _, pinf => true
  | pinf, num _ => false
  | pinf, pinf => true

/-- numpy's maximum reduction step (`np.max`): NaN is absorbing. -/
def nmax : NFloat → NFloat → NFloat
  | nan, _ => nan
  | _, nan => nan
  | num a, num b => num (max a b)
  | pinf, _ => pinf
  | _, pinf => pinf
  | ninf, b => b
  | a, ninf => a

/-- IEEE `x != 0` test (`nan != 0` is true). -/
def ne0 : NFloat → Bool
  | num a => decide (a ≠ 0)
  | _ => true

end NFloat

open NFloat

/-- Ascending sort of a 3-vector by numpy's comparison key
(insertion network, stable). -/
def sort3 (v : NFloat × NFloat × NFloat) : NFloat × NFloat × NFloat :=
  let a := v.1; let b := v.2.1; let c := v.2.2
  if keyLe a b then
    if keyLe b c then (a, b, c)
    else if keyLe a c then (a, c, b)
    else (c, a, b)
  else
    if keyLe a c then (b, a, c)
    else if keyLe b c then (b, c, a)
    else (c, b, a)

/-- Python `-np.sort(-val, axis=-1)` on the three per-voxel eigenvalues:
descending sort. -/
def sortDesc (v : NFloat × NFloat × NFloat) : NFloat × NFloat × NFloat :=
  let s := sort3 (nneg v.1, nneg v.2.1, nneg v.2.2)
  (nneg s.1, nneg s.2.1, nneg s.2.2)

/-! ## `tensor_to_DTI` (TIME/utils.py) -/

/-- A 4-dimensional numpy array of `NFloat` entries.  The `data`
function is total; only indices below the dims are meaningful. -/
structure T4 where
  d0 : ℕ
  d1 : ℕ
  d2 : ℕ
  d3 : ℕ
  data : ℕ → ℕ → ℕ → ℕ → NFloat

/-- A 5-dimensional numpy array of `NFloat` entries. -/
structure T5 where
  d0 : ℕ
  d1 : ℕ
  d2 : ℕ
  d3 : ℕ
  d4 : ℕ
  data : ℕ → ℕ → ℕ → ℕ → ℕ → NFloat

/-- Python `t[..., np.newaxis]`: append a trailing axis of extent 1. -/
def newaxisLast (t : T4) : T5 :=
  ⟨t.d0, t.d1, t.d2, t.d3, 1, fun a b c d _ => t.data a b c d⟩

/-- Python `np.transpose(t, (1, 2, 3, 4, 0))`: result axis `i` is the
argument's axis `(1,2,3,4,0)[i]`, so
`result[a,b,c,d,e] = t[e,a,b,c,d]`. -/
def transpose12340 (t : T5) : T5 :=
  ⟨t.d1, t.d2, t.d3, t.d4, t.d0, fun a b c d e => t.data e a b c d⟩

/-- A per-voxel 3×3 matrix. -/
abbrev Mat3 : Type := Fin 3 → Fin 3 → NFloat

/-- Component placement used by the rank-4 branch (lines 128-130):
`[[0,1,2],[1,3,4],[2,4,5]]`. -/
def idx4 : Fin 3 → Fin 3 → ℕ
  | 0, 0 => 0 | 0, 1 => 1 | 0, 2 => 2
  | 1, 0 => 1 | 1, 1 => 3 | 1, 2 => 4
  | 2, 0 => 2 | 2, 1 => 4 | 2, 2 => 5

/-- Component placement used by the rank-5 branch (lines 134-136):
`[[0,1,3],[1,2,4],[3,4,5]]`. -/
def idx5 : Fin 3 → Fin 3 → ℕ
  | 0, 0 => 0 | 0, 1 => 1 | 0, 2 => 3
  | 1, 0 => 1 | 1, 1 => 2 | 1, 2 => 4
  | 2, 0 => 3 | 2, 1 => 4 | 2, 2 => 5

/-- Build the per-voxel symmetric matrix `mt` from the six stored
components `t[:, :, :, 0, idx r c]` (after the final
`np.transpose(mt, (2,3,4,0,1))`, voxel axes first). -/
def mtFrom (idx : Fin 3 → Fin 3 → ℕ) (t : T5) :
    ℕ → ℕ → ℕ → Mat3 :=
  fun i j k r c => t.data i j k 0 (idx r c)

/-- The matrix the rank-4 branch feeds to the eigensolver at each
voxel: built from `np.transpose(t[..., np.newaxis], (1,2,3,4,0))` with
the `idx4` placement. -/
def mt4At (t : T4) : ℕ → ℕ → ℕ → Mat3 :=
  mtFrom idx4 (transpose12340 (newaxisLast t))

/-- The sorted per-voxel eigenvalue triple actually used by the scalar
map formulas: `val = -np.sort(-val, axis=-1)` applied to the
eigensolver output. -/
def valAt (eig : Mat3 → NFloat × NFloat × NFloat)
    (mt : ℕ → ℕ → ℕ → Mat3) (i j k : ℕ) : NFloat × NFloat × NFloat :=
  sortDesc (eig (mt i j k))

/-- The four scalar maps of `tensor_to_DTI`, with the spatial shape of
the underlying arrays. -/
structure DTIMaps where
  shape : ℕ × ℕ × ℕ
  FA : ℕ → ℕ → ℕ → NFloat
  AD : ℕ → ℕ → ℕ → NFloat
  RD : ℕ → ℕ → ℕ → NFloat
  MD : ℕ → ℕ → ℕ → NFloat

/-- Python `m[np.isnan(m)] = 0` applied to one voxel value. -/
def nanCoerce (x : NFloat) : NFloat := if x.isnan then num 0 else x

/-- Lines 139-163 of `tensor_to_DTI`: eigendecomposition, descending
sort, the FA/MD/AD/RD formulas, and the NaN-coercion loop, per voxel.
(`.real` is the identity here: the abstract eigensolver already
returns real values.) -/
def scalarMaps (eig : Mat3 → NFloat × NFloat × NFloat)
    (sqrt : NFloat → NFloat) (shape : ℕ × ℕ × ℕ)
    (mt : ℕ → ℕ → ℕ → Mat3) : DTIMaps :=
  { shape := shape
    FA := fun i j k =>
      let v := valAt eig mt i j k
      nanCoerce (sqrt (ndiv
        (nadd (nadd (npow2 (nsub v.1 v.2.1)) (npow2 (nsub v.2.1 v.2.2)))
          (npow2 (nsub v.2.2 v.1)))
        (nmul (num 2)
          (nadd (nadd (npow2 v.1) (npow2 v.2.1)) (npow2 v.2.2)))))
    AD := fun i j k =>
      let v := valAt eig mt i j k
      nanCoerce v.1
    RD := fun i j k =>
      let v := valAt eig mt i j k
      nanCoerce (ndiv (nadd v.2.1 v.2.2) (num 2))
    MD := fun i j k =>
      let v := valAt eig mt i j k
      nanCoerce (ndiv (nadd (nadd v.1 v.2.1) v.2.2) (num 3)) }

/-- Function `tensor_to_DTI` on a rank-5 input (the `else` branch): the six
components are read from the last axis with placement `idx5`; the
maps have the spatial shape of the input's first three axes. -/
def tensor_to_DTI_5d (eig : Mat3 → NFloat × NFloat × NFloat)
    (sqrt : NFloat → NFloat) (t : T5) : DTIMaps :=
  scalarMaps eig sqrt (t.d0, t.d1, t.d2) (mtFrom idx5 t)

/-- Function `tensor_to_DTI` on a rank-4 input (the `len(t.shape) == 4`
branch): `t = np.transpose(t[..., np.newaxis], (1,2,3,4,0))`, then the
`idx4` placement; the maps take the spatial shape of the transposed
array's first three axes. -/
def tensor_to_DTI_4d (eig : Mat3 → NFloat × NFloat × NFloat)
    (sqrt : NFloat → NFloat) (t : T4) : DTIMaps :=
  let t5 := transpose12340 (newaxisLast t)
  scalarMaps eig sqrt (t5.d0, t5.d1, t5.d2) (mtFrom idx4 t5)

/-- The all-zero 3×3 matrix. -/
def zeroMat : Mat3 := fun _ _ => num 0

/-- An all-zero rank-5 tensor field. -/
def zeroT5 (d0 d1 d2 d3 d4 : ℕ) : T5 :=
  ⟨d0, d1, d2, d3, d4, fun _ _ _ _ _ => num 0⟩

/-! ### The `np.seterr` warning state around `tensor_to_DTI` -/

/-- One numpy error-handling mode (the code only ever uses
`'ignore'` and `'warn'`). -/
inductive WMode where
  | warn
  | ignore
deriving DecidableEq, Repr

/-- The process-wide numpy warning state for the `divide` and
`invalid` categories. -/
structure WState where
  divide : WMode
  invalid : WMode
deriving DecidableEq, Repr

/-- Python `np.seterr(divide=d, invalid=i)`: overwrites the process-wide
state; the code discards the returned previous settings. -/
def np_seterr (d i : WMode) (_s : WState) : WState := ⟨d, i⟩

/-- Function `tensor_to_DTI` on a rank-5 input with the process-wide warning
state threaded explicitly and a fallible (vectorized) eigensolver.
The code runs `np.seterr(divide='ignore', invalid='ignore')`, builds
`mt`, calls `np.linalg.eig` (which may raise), finishes the maps, and
only then runs `np.seterr(divide='warn', invalid='warn')`; there is no
try/finally, so a raising eigensolver propagates with the suppressed
state still in force. -/
def tensor_to_DTI_5d_run
    (eigF : (ℕ → ℕ → ℕ → Mat3) →
      Except Unit (ℕ → ℕ → ℕ → NFloat × NFloat × NFloat))
    (sqrt : NFloat → NFloat) (t : T5) (s0 : WState) :
    Except Unit DTIMaps × WState :=
  let s1 := np_seterr .ignore .ignore s0
  match eigF (mtFrom idx5 t) with
  | .error e => (.error e, s1)
  | .ok vals =>
      let maps : DTIMaps :=
        { shape := (t.d0, t.d1, t.d2)
          FA := fun i j k =>
            let v := sortDesc (vals i j k)
            nanCoerce (sqrt (ndiv
              (nadd (nadd (npow2 (nsub v.1 v.2.1))
                (npow2 (nsub v.2.1 v.2.2))) (npow2 (nsub v.2.2 v.1)))
              (nmul (num 2)
                (nadd (nadd (npow2 v.1) (npow2 v.2.1)) (npow2 v.2.2)))))
          AD := fun i j k => nanCoerce (sortDesc (vals i j k)).1
          RD := fun i j k =>
            let v := sortDesc (vals i j k)
            nanCoerce (ndiv (nadd v.2.1 v.2.2) (num 2))
          MD := fun i j k =>
            let v := sortDesc (vals i j k)
            nanCoerce (ndiv (nadd (nadd v.1 v.2.1) v.2.2) (num 3)) }
      let s2 := np_seterr .warn .warn s1
      (.ok maps, s2)

/-! ## `compute_alpha_surface` (src/unravel/viz.py)

The angular grid is built from floating-point `cos`/`sin` and `π`;
these numerics are abstracted as parameters `cosF`, `sinF`, `piQ`.
The three weighting kernels of `unravel.core` are external collaborators
returning a tuple whose first component is the coefficient; they are
parameters `kRaw`, `kCfo`, `kAng` with result types `ℚ × α` etc. -/

/-- A query direction `[x[xyz], y[xyz], z[xyz]]`. -/
abbrev Dir3 : Type := ℚ × ℚ × ℚ

/-- A grid index of the fixed 200×200 angular grid. -/
abbrev GIdx : Type := Fin 200 × Fin 200

/-- Python `np.linspace(0, 2*np.pi, 200)` evaluated at index `i`:
`0 + i * (2π - 0)/199`. -/
def uVal (piQ : ℚ) (i : Fin 200) : ℚ := (i : ℚ) * (2 * piQ) / 199

/-- Python `np.linspace(0, np.pi, 200)` evaluated at index `j`. -/
def vVal (piQ : ℚ) (j : Fin 200) : ℚ := (j : ℚ) * piQ / 199

/-- Grid `x = np.outer(np.cos(u), np.sin(v))`. -/
def gridX (cosF sinF : ℚ → ℚ) (piQ : ℚ) (p : GIdx) : ℚ :=
  cosF (uVal piQ p.1) * sinF (vVal piQ p.2)

/-- Grid `y = np.outer(np.sin(u), np.sin(v))`. -/
def gridY (sinF : ℚ → ℚ) (piQ : ℚ) (p : GIdx) : ℚ :=
  sinF (uVal piQ p.1) * sinF (vVal piQ p.2)

/-- Grid `z = np.outer(np.ones(np.size(u)), np.cos(v))`. -/
def gridZ (cosF : ℚ → ℚ) (piQ : ℚ) (p : GIdx) : ℚ :=
  1 * cosF (vVal piQ p.2)

/-- The row-major enumeration of the 200×200 grid traversed by
`np.ndindex(x.shape)`. -/
def gridIdx : List GIdx :=
  (List.finRange 200).flatMap fun i =>
    (List.finRange 200).map fun j => (i, j)

/-- The per-point loop state: the current values of the four arrays
`x`, `y`, `z`, `coef` at each grid point. -/
abbrev AlphaState : Type := GIdx → ℚ × ℚ × ℚ × ℚ

/-- One iteration of the `for xyz in np.ndindex(x.shape)` loop at a
single grid point: dispatch on `method`, read the current (still
unscaled) direction, then scale `x`, `y`, `z` in place by `(a+1)` and
record `a` in `coef`. -/
def alphaStep {α β γ : Type}
    (kRaw : Dir3 → List Dir3 → List ℤ → ℚ × α)
    (kCfo : Dir3 → List Dir3 → List ℤ → ℚ × β)
    (kAng : Dir3 → List Dir3 → List ℤ → ℚ × γ)
    (vList : List Dir3) (nList : List ℤ) (method : String)
    (v : ℚ × ℚ × ℚ × ℚ) : ℚ × ℚ × ℚ × ℚ :=
  let d : Dir3 := (v.1, v.2.1, v.2.2.1)
  let a : ℚ :=
    if method = "raw" then (kRaw d vList nList).1
    else if method = "cfo" then (kCfo d vList nList).1
    else (kAng d vList nList).1
  (v.1 * (a + 1), v.2.1 * (a + 1), v.2.2.1 * (a + 1), a)

/-- The four arrays returned by `compute_alpha_surface`. -/
structure AlphaSurface where
  x : GIdx → ℚ
  y : GIdx → ℚ
  z : GIdx → ℚ
  coef : GIdx → ℚ

/-- The `for xyz in np.ndindex(x.shape)` loop: fold the per-point
in-place update over the row-major grid enumeration. -/
def alphaGrid (step : ℚ × ℚ × ℚ × ℚ → ℚ × ℚ × ℚ × ℚ)
    (g0 : AlphaState) : AlphaState :=
  gridIdx.foldl (fun g p => Function.update g p (step (g p))) g0

/-- The initial loop state: the freshly built angular grid, with
`coef = x.copy()`. -/
def alphaInit (cosF sinF : ℚ → ℚ) (piQ : ℚ) : AlphaState := fun p =>
  (gridX cosF sinF piQ p, gridY sinF piQ p,
   gridZ cosF piQ p, gridX cosF sinF piQ p)

/-- Function `compute_alpha_surface(vList, method)`: builds the angular grid
(`coef` starts as `x.copy()`), runs the per-point loop over all
40 000 grid points, and returns the four arrays. -/
def compute_alpha_surface {α β γ : Type}
    (kRaw : Dir3 → List Dir3 → List ℤ → ℚ × α)
    (kCfo : Dir3 → List Dir3 → List ℤ → ℚ × β)
    (kAng : Dir3 → List Dir3 → List ℤ → ℚ × γ)
    (cosF sinF : ℚ → ℚ) (piQ : ℚ)
    (vList : List Dir3) (method : String) : AlphaSurface :=
  let nList : List ℤ := List.replicate vList.length 0
  let g := alphaGrid (alphaStep kRaw kCfo kAng vList nList method)
    (alphaInit cosF sinF piQ)
  ⟨fun p => (g p).1, fun p => (g p).2.1,
   fun p => (g p).2.2.1, fun p => (g p).2.2.2⟩

/-- The same surface computation with a single fixed kernel (the body
of one dispatch branch): used to state that the dispatch selects a
branch. -/
def alphaStepFixed (k1 : Dir3 → List Dir3 → List ℤ → ℚ)
    (vList : List Dir3) (nList : List ℤ)
    (v : ℚ × ℚ × ℚ × ℚ) : ℚ × ℚ × ℚ × ℚ :=
  let d : Dir3 := (v.1, v.2.1, v.2.2.1)
  let a : ℚ := k1 d vList nList
  (v.1 * (a + 1), v.2.1 * (a + 1), v.2.2.1 * (a + 1), a)

/-- The surface computed with one fixed weighting kernel. -/
def compute_alpha_surface_fixed (k1 : Dir3 → List Dir3 → List ℤ → ℚ)
    (cosF sinF : ℚ → ℚ) (piQ : ℚ) (vList : List Dir3) : AlphaSurface :=
  let nList : List ℤ := List.replicate vList.length 0
  let g := alphaGrid (alphaStepFixed k1 vList nList)
    (alphaInit cosF sinF piQ)
  ⟨fun p => (g p).1, fun p => (g p).2.1,
   fun p => (g p).2.2.1, fun p => (g p).2.2.2⟩

/-! ## `overlap_volumes` (src/unravel/viz.py)

A numpy volume of rank 3 (`(x,y,z)`) or rank 4 (`(x,y,z,c)`).  The
rank is recorded in `dims`; `data` is a total function over four
indices, the channel index being ignored for rank-3 volumes (their
values live at channel 0).  `scipy.ndimage.zoom` is an external
collaborator and is a parameter `zoomF` receiving the layer, the
target spatial size (the code passes the per-axis ratio
`max_size[i]/size[i]`, channel ratio 1) and the interpolation
`order`. -/
structure Vol where
  dims : List ℕ
  data : ℕ → ℕ → ℕ → ℕ → NFloat

/-- Python `vol.shape[:3]`. -/
def shape3 (v : Vol) : ℕ × ℕ × ℕ :=
  (v.dims.getD 0 0, v.dims.getD 1 0, v.dims.getD 2 0)

/-- Python `vol.shape[-1]` (numpy's last-axis extent). -/
def lastDim (v : Vol) : ℕ := v.dims.getLastD 0

/-- Function `grayscale_to_rgb`: `np.repeat(array[..., np.newaxis], 3, axis=3)`
on a rank-3 array. -/
def grayscale_to_rgb (v : Vol) : Vol :=
  ⟨v.dims.take 3 ++ [3], fun i j k _ => v.data i j k 0⟩

/-- The `max_size` accumulation loop of `overlap_volumes`
(per-axis running maximum over `vol.shape[:3]`, starting from
`[0, 0, 0]`). -/
def maxSize (l : List Vol) : ℕ × ℕ × ℕ :=
  l.foldl (fun m v =>
    (max m.1 (shape3 v).1, max m.2.1 (shape3 v).2.1,
     max m.2.2 (shape3 v).2.2)) (0, 0, 0)

/-- Python `np.zeros(tuple(max_size) + (3,))`. -/
def zerosVol (m : ℕ × ℕ × ℕ) : Vol :=
  ⟨[m.1, m.2.1, m.2.2, 3], fun _ _ _ _ => num 0⟩

/-- Row-major enumeration of the index space of a rank-≤4 numpy array
with dims `ds` (missing axes contribute a single index 0, matching a
flat reduction over a rank-3 array). -/
def idxList (ds : List ℕ) : List (ℕ × ℕ × ℕ × ℕ) :=
  (List.range (ds.getD 0 0)).flatMap fun i =>
    (List.range (ds.getD 1 0)).flatMap fun j =>
      (List.range (ds.getD 2 0)).flatMap fun k =>
        (List.range (ds.getD 3 1)).map fun c => (i, j, k, c)

/-- Python `np.max(layer)`: the maximum reduction over the whole array. -/
def volMax (v : Vol) : NFloat :=
  (idxList v.dims).foldl
    (fun acc p => nmax acc (v.data p.1 p.2.1 p.2.2.1 p.2.2.2)) ninf

/-- Python `np.sum(layer, axis=3)` at one voxel (layers reaching the
compositing step have 3 channels). -/
def chanSum (v : Vol) (i j k : ℕ) : NFloat :=
  nadd (nadd (v.data i j k 0) (v.data i j k 1)) (v.data i j k 2)

/-- Python `layer /= np.max(layer)` (the divisor `np.max` is evaluated before
the in-place elementwise division). -/
def normalizeVol (v : Vol) : Vol :=
  ⟨v.dims, fun i j k c => ndiv (v.data i j k c) (volMax v)⟩

/-- Python `back[...] = layer[...]` masked on `np.sum(layer, axis=3) != 0`:
masked overwrite of the destination by the non-transparent voxels of
the layer. -/
def maskOverwrite (back layer : Vol) : Vol :=
  ⟨back.dims, fun i j k c =>
    if (chanSum layer i j k).ne0 then layer.data i j k c
    else back.data i j k c⟩

/-- Lines 76-85 applied to the popped layer: grayscale promotion when
`layer.shape[-1] != 3`, resampling to the common shape, then in-place
self-max normalization. -/
def prepLayer (zoomF : Vol → ℕ × ℕ × ℕ → ℕ → Vol)
    (maxs : ℕ × ℕ × ℕ) (order : ℕ) (layer : Vol) : Vol :=
  normalizeVol (zoomF
    (if lastDim layer ≠ 3 then grayscale_to_rgb layer else layer)
    maxs order)

/-- One iteration of the `while len(vol_list) > 0` loop body, applied
to the already-popped `layer`. -/
def overlap_step (zoomF : Vol → ℕ × ℕ × ℕ → ℕ → Vol)
    (maxs : ℕ × ℕ × ℕ) (order : ℕ) (back layer : Vol) : Vol :=
  maskOverwrite back (prepLayer zoomF maxs order layer)

/-- The `while` loop of `overlap_volumes`, popping from the end of the
caller's list (`vol_list.pop()`).  The loop runs while the list is
non-empty and each iteration removes exactly one element, so running
it with fuel `vol_list.length` is exact; the final list state is
returned alongside the composite. -/
def overlap_loop (zoomF : Vol → ℕ × ℕ × ℕ → ℕ → Vol)
    (maxs : ℕ × ℕ × ℕ) (order : ℕ) :
    ℕ → List Vol → Vol → List Vol × Vol
  | 0, pending, back => (pending, back)
  | n + 1, pending, back =>
      match pending.getLast? with
      | none => (pending, back)
      | some layer =>
          overlap_loop zoomF maxs order n pending.dropLast
            (overlap_step zoomF maxs order back layer)

/-- Python `back[:, :, :, 0]`. -/
def slice0 (v : Vol) : Vol :=
  ⟨v.dims.take 3, fun i j k _ => v.data i j k 0⟩

/-- Function `overlap_volumes(vol_list, rgb, order)`.  The mutation of the
caller's list by `vol_list.pop()` is made explicit: the second
component of the result is the state of the caller's list after the
call returns. -/
def overlap_volumes (zoomF : Vol → ℕ × ℕ × ℕ → ℕ → Vol)
    (vol_list : List Vol) (rgb : Bool) (order : ℕ) : Vol × List Vol :=
  let maxs := maxSize vol_list
  let r := overlap_loop zoomF maxs order vol_list.length vol_list
    (zerosVol maxs)
  ((if rgb then r.2 else slice0 r.2), r.1)

/-- The spatial maximum of a rank-3 layer's rational values, as the
specification describes the self-normalization divisor ("the layer's
own maximum"); the fold starts at 0, which is the array maximum for
the nonnegative intensity volumes of the claims. -/
def spatialMaxQ (f : ℕ → ℕ → ℕ → ℚ) (x y z : ℕ) : ℚ :=
  ((idxList [x, y, z]).map (fun p => f p.1 p.2.1 p.2.2.1)).foldl max 0

/-! ## Helper lemmas -/

/-- Concrete stub eigensolver (used to close universally quantified
statements at a specific input). -/
def eigZero : Mat3 → NFloat × NFloat × NFloat := fun _ => (num 0, num 0, num 0)

/-- Concrete stub eigensolver returning the triple (1, 3, 2). -/
def eig132 : Mat3 → NFloat × NFloat × NFloat := fun _ => (num 1, num 3, num 2)

/-- Concrete stub square root (the identity, which fixes `nan`). -/
def sqrtId : NFloat → NFloat := fun x => x

/-- Concrete always-failing vectorized eigensolver. -/
def eigFBad : (ℕ → ℕ → ℕ → Mat3) →
    Except Unit (ℕ → ℕ → ℕ → NFloat × NFloat × NFloat) :=
  fun _ => .error ()

/-- Concrete identity resampler (valid for layers already at target
shape). -/
def zoomId : Vol → ℕ × ℕ × ℕ → ℕ → Vol := fun v _ _ => v

lemma mswap12 (x y z : ℚ) : ({x, y, z} : Multiset ℚ) = {y, x, z} :=
  Multiset.cons_swap x y {z}

lemma mswap23 (x y z : ℚ) : ({x, y, z} : Multiset ℚ) = {x, z, y} := by
  have h : y ::ₘ {z} = z ::ₘ {y} := by
    rw [← Multiset.cons_zero z, ← Multiset.cons_zero y]
    exact Multiset.cons_swap y z 0
  show x ::ₘ y ::ₘ {z} = x ::ₘ z ::ₘ {y}
  rw [h]

lemma sort3_num_spec (a b c : ℚ) :
    ∃ p q r : ℚ, sort3 (num a, num b, num c) = (num p, num q, num r)
      ∧ p ≤ q ∧ q ≤ r ∧ ({p, q, r} : Multiset ℚ) = {a, b, c} := by
  unfold sort3
  simp only [keyLe, decide_eq_true_eq]
  split_ifs with h1 h2 h3 h4 h5
  · exact ⟨a, b, c, rfl, h1, h2, rfl⟩
  · exact ⟨a, c, b, rfl, h3, by linarith, mswap23 a c b⟩
  · exact ⟨c, a, b, rfl, by linarith, h1, (mswap12 c a b).trans (mswap23 a c b)⟩
  · exact ⟨b, a, c, rfl, by linarith, h4, mswap12 b a c⟩
  · exact ⟨b, c, a, rfl, h5, by linarith, (mswap23 b c a).trans (mswap12 b a c)⟩
  · exact ⟨c, b, a, rfl, by linarith, by linarith,
      (mswap12 c b a).trans ((mswap23 b c a).trans (mswap12 b a c))⟩

lemma sortDesc_num_spec (a b c : ℚ) :
    ∃ p q r : ℚ, sortDesc (num a, num b, num c) = (num p, num q, num r)
      ∧ q ≤ p ∧ r ≤ q ∧ ({p, q, r} : Multiset ℚ) = {a, b, c} := by
  obtain ⟨p, q, r, hs, hpq, hqr, hm⟩ := sort3_num_spec (-a) (-b) (-c)
  refine ⟨-p, -q, -r, ?_, by linarith, by linarith, ?_⟩
  · unfold sortDesc
    simp only [nneg, hs]
  · have h2 := congrArg (Multiset.map (fun x : ℚ => -x)) hm
    simpa using h2

/-! ## Claim theorems -/

/-- A concrete rank-4 tensor field of shape (6,1,1,6) with
pairwise-distinguishable entries, used to separate the two axis
conventions. -/
def t4ctr : T4 := ⟨6, 1, 1, 6, fun i _ _ l => num ((1000 * i + l : ℕ) : ℚ)⟩

/-- C1 (counterexample): on a 4-dimensional input read as shape
(x,y,z,6), the rank-4 branch of `tensor_to_DTI` does NOT use the last
axis as the component axis and does NOT return maps of spatial shape
(x,y,z): for the concrete field `t4ctr` of shape (6,1,1,6), the
returned maps have shape (1,1,6) rather than (6,1,1), and the (0,1)
entry of the matrix decomposed at voxel (0,0,0) is `t[1,0,0,0]`, not
`t[0,0,0,1]`. -/
theorem C1_counterexample :
    (tensor_to_DTI_4d eigZero sqrtId t4ctr).shape ≠
      (t4ctr.d0, t4ctr.d1, t4ctr.d2)
    ∧ mt4At t4ctr 0 0 0 0 1 ≠ t4ctr.data 0 0 0 1 := by
  constructor
  · decide
  · decide

/-- C1 (amended): the rank-4 branch appends a trailing axis and
rotates it with `np.transpose(·, (1,2,3,4,0))`, so the FIRST axis of
a 4-dimensional input is the component axis (the input is effectively
of shape (6,x,y,z)): the symmetric matrix decomposed at voxel (i,j,k)
has entry (r,c) equal to `t[idx4 r c, i, j, k]` with the placement
`idx4 = [[0,1,2],[1,3,4],[2,4,5]]` (so it is the canonical symmetric
matrix built from components 0..5 of the first axis), and every
returned map has the spatial shape (d1,d2,d3) of the input's LAST
three dimensions. -/
theorem C1_amended (eig : Mat3 → NFloat × NFloat × NFloat)
    (sqrt : NFloat → NFloat) (t : T4) (i j k : ℕ) (r c : Fin 3) :
    mt4At t i j k r c = t.data (idx4 r c) i j k
    ∧ idx4 r c = idx4 c r
    ∧ (tensor_to_DTI_4d eig sqrt t).shape = (t.d1, t.d2, t.d3) := by
  refine ⟨rfl, ?_, rfl⟩
  fin_cases r <;> fin_cases c <;> rfl

/-- C6 (counterexample): when the eigensolver raises mid-computation,
`tensor_to_DTI` does NOT restore the process-wide warning state: the
`np.seterr(divide='warn', invalid='warn')` line is only reached on the
normal return path (there is no try/finally), so the suppressed
(ignore, ignore) state leaks to the caller. -/
theorem C6_counterexample :
    (tensor_to_DTI_5d_run eigFBad sqrtId (zeroT5 1 1 1 1 6)
      ⟨.warn, .warn⟩).2 = ⟨.ignore, .ignore⟩
    ∧ (⟨.ignore, .ignore⟩ : WState) ≠ ⟨.warn, .warn⟩ := by
  constructor
  · rfl
  · decide

/-- C6 (amended): the warning-state discipline of `tensor_to_DTI` is
one-sided: the function always enters by setting (ignore, ignore);
if the eigensolver returns normally the state is set to the numpy
default (warn, warn) — unconditionally, not to the caller's prior
state — and if the eigensolver raises, the error propagates with the
suppressed (ignore, ignore) state still in force. -/
theorem C6_amended
    (eigF : (ℕ → ℕ → ℕ → Mat3) →
      Except Unit (ℕ → ℕ → ℕ → NFloat × NFloat × NFloat))
    (sqrt : NFloat → NFloat) (t : T5) (s0 : WState) :
    (tensor_to_DTI_5d_run eigF sqrt t s0).2 =
      match eigF (mtFrom idx5 t) with
      | .ok _ => ⟨WMode.warn, WMode.warn⟩
      | .error _ => ⟨WMode.ignore, WMode.ignore⟩ := by
  unfold tensor_to_DTI_5d_run
  cases h : eigF (mtFrom idx5 t) <;> simp [np_seterr]

lemma overlap_loop_drains (zoomF : Vol → ℕ × ℕ × ℕ → ℕ → Vol)
    (maxs : ℕ × ℕ × ℕ) (order : ℕ) :
    ∀ (n : ℕ) (pending : List Vol) (back : Vol),
      pending.length ≤ n →
      (overlap_loop zoomF maxs order n pending back).1 = [] := by
  intro n
  induction n with
  | zero =>
      intro pending back h
      have hp : pending = [] := List.eq_nil_of_length_eq_zero (Nat.le_zero.mp h)
      subst hp
      rfl
  | succ n ih =>
      intro pending back h
      cases hl : pending.getLast? with
      | none =>
          have hp : pending = [] := List.getLast?_eq_none_iff.mp hl
          subst hp
          rfl
      | some layer =>
          have hne : pending ≠ [] := by
            intro hnil
            rw [hnil] at hl
            exact Option.noConfusion hl
          have hlen : pending.dropLast.length ≤ n := by
            rw [List.length_dropLast]
            omega
          simp only [overlap_loop, hl]
          exact ih pending.dropLast _ hlen

/-- C10: `overlap_volumes` consumes the caller's list as a work queue
(`vol_list.pop()` until empty): after the call, the caller's list
state — returned explicitly by the embedding — is the empty list,
whatever the inputs were.  (The popped arrays themselves are only
read: every derived layer is a fresh array.) -/
theorem C10_list_consumed (zoomF : Vol → ℕ × ℕ × ℕ → ℕ → Vol)
    (vol_list : List Vol) (rgb : Bool) (order : ℕ) :
    (overlap_volumes zoomF vol_list rgb order).2 = [] := by
  unfold overlap_volumes
  exact overlap_loop_drains zoomF _ order vol_list.length vol_list _ le_rfl

lemma overlap_loop_dims (zoomF : Vol → ℕ × ℕ × ℕ → ℕ → Vol)
    (maxs : ℕ × ℕ × ℕ) (order : ℕ) :
    ∀ (n : ℕ) (pending : List Vol) (back : Vol),
      (overlap_loop zoomF maxs order n pending back).2.dims = back.dims := by
  intro n
  induction n with
  | zero => intro pending back; rfl
  | succ n ih =>
      intro pending back
      cases hl : pending.getLast? with
      | none => simp only [overlap_loop, hl]
      | some layer =>
          simp only [overlap_loop, hl]
          exact ih pending.dropLast _

lemma foldl_nat_max_eq_foldr (l : List ℕ) :
    ∀ a : ℕ, l.foldl max a = max a (l.foldr max 0) := by
  induction l with
  | nil => intro a; simp
  | cons x xs ih =>
      intro a
      simp only [List.foldl_cons, List.foldr_cons, ih (max a x)]
      rw [max_assoc]

lemma maxSize_components (l : List Vol) :
    ∀ m : ℕ × ℕ × ℕ,
      l.foldl (fun m v =>
        (max m.1 (shape3 v).1, max m.2.1 (shape3 v).2.1,
         max m.2.2 (shape3 v).2.2)) m =
      (max m.1 ((l.map fun v => (shape3 v).1).foldr max 0),
       max m.2.1 ((l.map fun v => (shape3 v).2.1).foldr max 0),
       max m.2.2 ((l.map fun v => (shape3 v).2.2).foldr max 0)) := by
  induction l with
  | nil => intro m; simp
  | cons x xs ih =>
      intro m
      simp only [List.foldl_cons, List.map_cons, List.foldr_cons, ih]
      rw [max_assoc, max_assoc, max_assoc]

lemma maxSize_eq (l : List Vol) :
    maxSize l =
      ((l.map fun v => (shape3 v).1).foldr max 0,
       (l.map fun v => (shape3 v).2.1).foldr max 0,
       (l.map fun v => (shape3 v).2.2).foldr max 0) := by
  unfold maxSize
  rw [maxSize_components]
  simp

/-- C8: the output of `overlap_volumes` has spatial shape equal to
the per-axis maximum of the input volumes' first three dimensions
(expressed here as an independent fold over the input shapes), with a
trailing channel axis of extent 3 when `rgb=True`, and as a
single-channel (first-channel) 3-D array when `rgb=False`. -/
theorem C8_output_shape (zoomF : Vol → ℕ × ℕ × ℕ → ℕ → Vol)
    (vol_list : List Vol) (order : ℕ) :
    (overlap_volumes zoomF vol_list true order).1.dims =
      [(vol_list.map fun v => (shape3 v).1).foldr max 0,
       (vol_list.map fun v => (shape3 v).2.1).foldr max 0,
       (vol_list.map fun v => (shape3 v).2.2).foldr max 0, 3]
    ∧ (overlap_volumes zoomF vol_list false order).1.dims =
      [(vol_list.map fun v => (shape3 v).1).foldr max 0,
       (vol_list.map fun v => (shape3 v).2.1).foldr max 0,
       (vol_list.map fun v => (shape3 v).2.2).foldr max 0] := by
  have hloop := overlap_loop_dims zoomF (maxSize vol_list) order
    vol_list.length vol_list (zerosVol (maxSize vol_list))
  constructor
  · show (overlap_loop zoomF (maxSize vol_list) order vol_list.length
      vol_list (zerosVol (maxSize vol_list))).2.dims = _
    rw [hloop, maxSize_eq]
    rfl
  · show (slice0 (overlap_loop zoomF (maxSize vol_list) order
      vol_list.length vol_list (zerosVol (maxSize vol_list))).2).dims = _
    unfold slice0
    rw [hloop, maxSize_eq]
    rfl

/-- C2: for any tensor field fed to `tensor_to_DTI` (rank-5 branch)
and any real eigenvalue triple (a,b,c) the eigensolver produces at a
voxel, the triple the scalar formulas consume is sorted descending
(λ0 ≥ λ1 ≥ λ2), is a permutation of the solver's output, and
consequently AD is the largest eigenvalue and RD the mean of the two
smallest. -/
theorem C2_eigenvalues_sorted (eig : Mat3 → NFloat × NFloat × NFloat)
    (sqrt : NFloat → NFloat) (t : T5) (i j k : ℕ) (a b c : ℚ)
    (h : eig (mtFrom idx5 t i j k) = (num a, num b, num c)) :
    ∃ p q r : ℚ,
      valAt eig (mtFrom idx5 t) i j k = (num p, num q, num r)
      ∧ q ≤ p ∧ r ≤ q
      ∧ ({p, q, r} : Multiset ℚ) = {a, b, c}
      ∧ p = max a (max b c)
      ∧ (tensor_to_DTI_5d eig sqrt t).AD i j k = num p
      ∧ (tensor_to_DTI_5d eig sqrt t).RD i j k = num ((q + r) / 2)
      ∧ q + r = a + b + c - max a (max b c) := by
  obtain ⟨p, q, r, hs, hqp, hrq, hm⟩ := sortDesc_num_spec a b c
  have hval : valAt eig (mtFrom idx5 t) i j k = (num p, num q, num r) := by
    unfold valAt
    rw [h]
    exact hs
  have hpm : p = a ∨ p = b ∨ p = c := by
    have hx : p ∈ ({a, b, c} : Multiset ℚ) := by
      rw [← hm]; simp
    simpa using hx
  have ham : a = p ∨ a = q ∨ a = r := by
    have hx : a ∈ ({p, q, r} : Multiset ℚ) := by
      rw [hm]; simp
    simpa using hx
  have hbm : b = p ∨ b = q ∨ b = r := by
    have hx : b ∈ ({p, q, r} : Multiset ℚ) := by
      rw [hm]; simp
    simpa using hx
  have hcm : c = p ∨ c = q ∨ c = r := by
    have hx : c ∈ ({p, q, r} : Multiset ℚ) := by
      rw [hm]; simp
    simpa using hx
  have hap : a ≤ p := by rcases ham with h1 | h1 | h1 <;> simp [h1] <;> linarith
  have hbp : b ≤ p := by rcases hbm with h1 | h1 | h1 <;> simp [h1] <;> linarith
  have hcp : c ≤ p := by rcases hcm with h1 | h1 | h1 <;> simp [h1] <;> linarith
  have hmaxp : p = max a (max b c) := by
    apply le_antisymm
    · rcases hpm with h1 | h1 | h1 <;> rw [h1]
      · exact le_max_left _ _
      · exact le_trans (le_max_left _ _) (le_max_right _ _)
      · exact le_trans (le_max_right _ _) (le_max_right _ _)
    · exact max_le hap (max_le hbp hcp)
  have hsum : p + q + r = a + b + c := by
    have hx := congrArg Multiset.sum hm
    simp at hx
    linarith
  refine ⟨p, q, r, hval, hqp, hrq, hm, hmaxp, ?_, ?_, by linarith⟩
  · show nanCoerce (valAt eig (mtFrom idx5 t) i j k).1 = num p
    rw [hval]
    rfl
  · show nanCoerce (ndiv (nadd (valAt eig (mtFrom idx5 t) i j k).2.1
      (valAt eig (mtFrom idx5 t) i j k).2.2) (num 2)) = num ((q + r) / 2)
    rw [hval]
    norm_num [nadd, ndiv, nanCoerce, isnan]

/-- Witness for C2 at a concrete input: a constant eigensolver
returning (1, 3, 2) on the all-zero field. -/
theorem C2_witness :
    ∃ p q r : ℚ,
      valAt eig132 (mtFrom idx5 (zeroT5 1 1 1 1 6)) 0 0 0 =
        (num p, num q, num r)
      ∧ q ≤ p ∧ r ≤ q
      ∧ ({p, q, r} : Multiset ℚ) = {1, 3, 2}
      ∧ p = max 1 (max 3 2)
      ∧ (tensor_to_DTI_5d eig132 sqrtId (zeroT5 1 1 1 1 6)).AD 0 0 0 = num p
      ∧ (tensor_to_DTI_5d eig132 sqrtId (zeroT5 1 1 1 1 6)).RD 0 0 0 =
        num ((q + r) / 2)
      ∧ q + r = 1 + 3 + 2 - max 1 (max 3 2) :=
  C2_eigenvalues_sorted eig132 sqrtId (zeroT5 1 1 1 1 6) 0 0 0 1 3 2 rfl

/-- C5: on an all-zero tensor field, all four maps of `tensor_to_DTI`
are exactly 0 at every voxel — the 0/0 of the FA formula produces NaN,
which the coercion loop turns into 0, and no infinity arises — for any
eigensolver that sends the zero matrix to (0,0,0) and any NaN-fixing
square root (as `np.sqrt` is). -/
theorem C5_zero_tensor (eig : Mat3 → NFloat × NFloat × NFloat)
    (sqrt : NFloat → NFloat) (d0 d1 d2 d3 d4 i j k : ℕ)
    (heig : eig zeroMat = (num 0, num 0, num 0))
    (hsqrt : sqrt nan = nan) :
    (tensor_to_DTI_5d eig sqrt (zeroT5 d0 d1 d2 d3 d4)).FA i j k = num 0
    ∧ (tensor_to_DTI_5d eig sqrt (zeroT5 d0 d1 d2 d3 d4)).AD i j k = num 0
    ∧ (tensor_to_DTI_5d eig sqrt (zeroT5 d0 d1 d2 d3 d4)).RD i j k = num 0
    ∧ (tensor_to_DTI_5d eig sqrt (zeroT5 d0 d1 d2 d3 d4)).MD i j k = num 0 := by
  have hval : valAt eig (mtFrom idx5 (zeroT5 d0 d1 d2 d3 d4)) i j k =
      (num 0, num 0, num 0) := by
    unfold valAt
    have hmt : mtFrom idx5 (zeroT5 d0 d1 d2 d3 d4) i j k = zeroMat := rfl
    rw [hmt, heig]
    rfl
  refine ⟨?_, ?_, ?_, ?_⟩
  · show nanCoerce (sqrt _) = num 0
    rw [hval]
    dsimp only
    rw [show ndiv
        (nadd (nadd (npow2 (nsub (num 0) (num 0)))
          (npow2 (nsub (num 0) (num 0)))) (npow2 (nsub (num 0) (num 0))))
        (nmul (num 2) (nadd (nadd (npow2 (num 0)) (npow2 (num 0)))
          (npow2 (num 0)))) = nan from by
      norm_num [nsub, nadd, nneg, npow2, nmul, ndiv]]
    rw [hsqrt]
    rfl
  · show nanCoerce (valAt eig (mtFrom idx5 (zeroT5 d0 d1 d2 d3 d4)) i j k).1 =
      num 0
    rw [hval]
    rfl
  · show nanCoerce (ndiv (nadd
      (valAt eig (mtFrom idx5 (zeroT5 d0 d1 d2 d3 d4)) i j k).2.1
      (valAt eig (mtFrom idx5 (zeroT5 d0 d1 d2 d3 d4)) i j k).2.2) (num 2)) =
      num 0
    rw [hval]
    norm_num [nadd, ndiv, nanCoerce, isnan]
  · show nanCoerce (ndiv (nadd (nadd
      (valAt eig (mtFrom idx5 (zeroT5 d0 d1 d2 d3 d4)) i j k).1
      (valAt eig (mtFrom idx5 (zeroT5 d0 d1 d2 d3 d4)) i j k).2.1)
      (valAt eig (mtFrom idx5 (zeroT5 d0 d1 d2 d3 d4)) i j k).2.2) (num 3)) =
      num 0
    rw [hval]
    norm_num [nadd, ndiv, nanCoerce, isnan]

/-- Witness for C5 at a concrete input: concrete stub eigensolver and
square root on a (1,1,1,1,6) all-zero field. -/
theorem C5_witness :
    (tensor_to_DTI_5d eigZero sqrtId (zeroT5 1 1 1 1 6)).FA 0 0 0 = num 0
    ∧ (tensor_to_DTI_5d eigZero sqrtId (zeroT5 1 1 1 1 6)).AD 0 0 0 = num 0
    ∧ (tensor_to_DTI_5d eigZero sqrtId (zeroT5 1 1 1 1 6)).RD 0 0 0 = num 0
    ∧ (tensor_to_DTI_5d eigZero sqrtId (zeroT5 1 1 1 1 6)).MD 0 0 0 = num 0 :=
  C5_zero_tensor eigZero sqrtId 1 1 1 1 6 0 0 0 rfl rfl

lemma foldl_update_pointwise {α V : Type} [DecidableEq α] (f : V → V)
    (l : List α) (g0 : α → V) (p : α) (hl : l.Nodup) :
    l.foldl (fun g q => Function.update g q (f (g q))) g0 p
      = if p ∈ l then f (g0 p) else g0 p := by
  induction l generalizing g0 with
  | nil => simp
  | cons a tl ih =>
      have hnd := List.nodup_cons.mp hl
      simp only [List.foldl_cons]
      rw [ih _ hnd.2]
      by_cases hp : p = a
      · subst hp
        simp [hnd.1, Function.update_same]
      · simp [Function.update_noteq hp, hp]

lemma gridIdx_eq_product :
    gridIdx = (List.finRange 200).product (List.finRange 200) := rfl

lemma gridIdx_nodup : gridIdx.Nodup := by
  rw [gridIdx_eq_product]
  exact List.Nodup.product (List.nodup_finRange 200) (List.nodup_finRange 200)

lemma mem_gridIdx (p : GIdx) : p ∈ gridIdx := by
  obtain ⟨i, j⟩ := p
  rw [gridIdx_eq_product]
  exact List.pair_mem_product.mpr ⟨List.mem_finRange i, List.mem_finRange j⟩

lemma alphaGrid_apply (step : ℚ × ℚ × ℚ × ℚ → ℚ × ℚ × ℚ × ℚ)
    (g0 : AlphaState) (p : GIdx) : alphaGrid step g0 p = step (g0 p) := by
  unfold alphaGrid
  rw [foldl_update_pointwise step gridIdx g0 p gridIdx_nodup,
    if_pos (mem_gridIdx p)]

lemma alpha_surface_ext {α β γ : Type}
    (kRaw : Dir3 → List Dir3 → List ℤ → ℚ × α)
    (kCfo : Dir3 → List Dir3 → List ℤ → ℚ × β)
    (kAng : Dir3 → List Dir3 → List ℤ → ℚ × γ)
    (cosF sinF : ℚ → ℚ) (piQ : ℚ) (vList : List Dir3) (method : String)
    (k1 : Dir3 → List Dir3 → List ℤ → ℚ)
    (hstep : ∀ v, alphaStep kRaw kCfo kAng vList
        (List.replicate vList.length 0) method v
      = alphaStepFixed k1 vList (List.replicate vList.length 0) v) :
    compute_alpha_surface kRaw kCfo kAng cosF sinF piQ vList method =
      compute_alpha_surface_fixed k1 cosF sinF piQ vList := by
  have hs : alphaStep kRaw kCfo kAng vList
      (List.replicate vList.length 0) method
      = alphaStepFixed k1 vList (List.replicate vList.length 0) :=
    funext hstep
  unfold compute_alpha_surface compute_alpha_surface_fixed
  dsimp only
  rw [hs]

/-- C3: kernel dispatch in `compute_alpha_surface` exact-matches only
the strings "raw" (relative angular weighting) and "cfo"
(closest-fixel-only); every other method string — including the
documented "ang" and "vol" — silently takes the plain
angular-weighting branch, producing output identical to it (and the
function is total: no error path exists). -/
theorem C3_dispatch {α β γ : Type}
    (kRaw : Dir3 → List Dir3 → List ℤ → ℚ × α)
    (kCfo : Dir3 → List Dir3 → List ℤ → ℚ × β)
    (kAng : Dir3 → List Dir3 → List ℤ → ℚ × γ)
    (cosF sinF : ℚ → ℚ) (piQ : ℚ) (vList : List Dir3) :
    (∀ method : String, method ≠ "raw" → method ≠ "cfo" →
      compute_alpha_surface kRaw kCfo kAng cosF sinF piQ vList method =
        compute_alpha_surface_fixed (fun d vl nl => (kAng d vl nl).1)
          cosF sinF piQ vList)
    ∧ compute_alpha_surface kRaw kCfo kAng cosF sinF piQ vList "raw" =
        compute_alpha_surface_fixed (fun d vl nl => (kRaw d vl nl).1)
          cosF sinF piQ vList
    ∧ compute_alpha_surface kRaw kCfo kAng cosF sinF piQ vList "cfo" =
        compute_alpha_surface_fixed (fun d vl nl => (kCfo d vl nl).1)
          cosF sinF piQ vList := by
  refine ⟨?_, ?_, ?_⟩
  · intro method hraw hcfo
    apply alpha_surface_ext
    intro v
    dsimp only [alphaStep, alphaStepFixed]
    rw [if_neg hraw, if_neg hcfo]
  · apply alpha_surface_ext
    intro v
    dsimp only [alphaStep, alphaStepFixed]
    rw [if_pos rfl]
  · apply alpha_surface_ext
    intro v
    dsimp only [alphaStep, alphaStepFixed]
    rw [if_neg (show ¬ ("cfo" = "raw") from by decide), if_pos rfl]

/-- Concrete stub relative-angular-weighting kernel. -/
def kRawStub : Dir3 → List Dir3 → List ℤ → ℚ × Unit := fun _ _ _ => (2, ())

/-- Concrete stub closest-fixel-only kernel. -/
def kCfoStub : Dir3 → List Dir3 → List ℤ → ℚ × Unit := fun _ _ _ => (3, ())

/-- Concrete stub angular-weighting kernel. -/
def kAngStub : Dir3 → List Dir3 → List ℤ → ℚ × Unit := fun _ _ _ => (5, ())

/-- Concrete stub trigonometric function. -/
def trigStub : ℚ → ℚ := fun q => q

/-- Witness for C3: the documented method name "ang" is not
exact-matched and lands on the angular-weighting branch. -/
theorem C3_witness :
    compute_alpha_surface kRawStub kCfoStub kAngStub trigStub trigStub 3
        [] "ang" =
      compute_alpha_surface_fixed (fun d vl nl => (kAngStub d vl nl).1)
        trigStub trigStub 3 [] :=
  (C3_dispatch kRawStub kCfoStub kAngStub trigStub trigStub 3 []).1 "ang"
    (by decide) (by decide)

/-- C4: at every grid point (i,j) of the 200×200 angular grid,
`compute_alpha_surface` returns mesh coordinates equal to the
unit-sphere parametrization point
(cos(u_i)·sin(v_j), sin(u_i)·sin(v_j), cos(v_j)) scaled componentwise
by (coef(i,j) + 1), where coef(i,j) is exactly the first value
returned by the selected kernel invoked with the unscaled grid
direction, vList and nList (the in-place update reads the direction
before scaling it, and every grid point is visited exactly once). -/
theorem C4_mesh_scaling {α β γ : Type}
    (kRaw : Dir3 → List Dir3 → List ℤ → ℚ × α)
    (kCfo : Dir3 → List Dir3 → List ℤ → ℚ × β)
    (kAng : Dir3 → List Dir3 → List ℤ → ℚ × γ)
    (cosF sinF : ℚ → ℚ) (piQ : ℚ) (vList : List Dir3) (method : String)
    (p : GIdx) :
    (compute_alpha_surface kRaw kCfo kAng cosF sinF piQ vList method).coef p =
      (if method = "raw" then
        (kRaw (gridX cosF sinF piQ p, gridY sinF piQ p, gridZ cosF piQ p)
          vList (List.replicate vList.length 0)).1
      else if method = "cfo" then
        (kCfo (gridX cosF sinF piQ p, gridY sinF piQ p, gridZ cosF piQ p)
          vList (List.replicate vList.length 0)).1
      else
        (kAng (gridX cosF sinF piQ p, gridY sinF piQ p, gridZ cosF piQ p)
          vList (List.replicate vList.length 0)).1)
    ∧ (compute_alpha_surface kRaw kCfo kAng cosF sinF piQ vList method).x p =
      gridX cosF sinF piQ p *
        ((compute_alpha_surface kRaw kCfo kAng cosF sinF piQ vList
          method).coef p + 1)
    ∧ (compute_alpha_surface kRaw kCfo kAng cosF sinF piQ vList method).y p =
      gridY sinF piQ p *
        ((compute_alpha_surface kRaw kCfo kAng cosF sinF piQ vList
          method).coef p + 1)
    ∧ (compute_alpha_surface kRaw kCfo kAng cosF sinF piQ vList method).z p =
      gridZ cosF piQ p *
        ((compute_alpha_surface kRaw kCfo kAng cosF sinF piQ vList
          method).coef p + 1) := by
  have hco : (compute_alpha_surface kRaw kCfo kAng cosF sinF piQ vList
      method).coef p =
      (alphaStep kRaw kCfo kAng vList (List.replicate vList.length 0) method
        (alphaInit cosF sinF piQ p)).2.2.2 := by
    unfold compute_alpha_surface
    dsimp only
    rw [alphaGrid_apply]
  have hx : (compute_alpha_surface kRaw kCfo kAng cosF sinF piQ vList
      method).x p =
      (alphaStep kRaw kCfo kAng vList (List.replicate vList.length 0) method
        (alphaInit cosF sinF piQ p)).1 := by
    unfold compute_alpha_surface
    dsimp only
    rw [alphaGrid_apply]
  have hy : (compute_alpha_surface kRaw kCfo kAng cosF sinF piQ vList
      method).y p =
      (alphaStep kRaw kCfo kAng vList (List.replicate vList.length 0) method
        (alphaInit cosF sinF piQ p)).2.1 := by
    unfold compute_alpha_surface
    dsimp only
    rw [alphaGrid_apply]
  have hz : (compute_alpha_surface kRaw kCfo kAng cosF sinF piQ vList
      method).z p =
      (alphaStep kRaw kCfo kAng vList (List.replicate vList.length 0) method
        (alphaInit cosF sinF piQ p)).2.2.1 := by
    unfold compute_alpha_surface
    dsimp only
    rw [alphaGrid_apply]
  refine ⟨?_, ?_, ?_, ?_⟩
  · rw [hco]
    dsimp only [alphaStep, alphaInit]
  · rw [hx, hco]
    dsimp only [alphaStep, alphaInit]
  · rw [hy, hco]
    dsimp only [alphaStep, alphaInit]
  · rw [hz, hco]
    dsimp only [alphaStep, alphaInit]

lemma foldl_over_flatMap {α β γ : Type} (h : α → List β) (F : γ → β → γ) :
    ∀ (l : List α) (m : γ),
      (l.flatMap h).foldl F m = l.foldl (fun acc a => (h a).foldl F acc) m := by
  intro l
  induction l with
  | nil => intro m; rfl
  | cons a tl ih =>
      intro m
      simp only [List.flatMap_cons, List.foldl_append, List.foldl_cons, ih]

lemma le_foldl_max {I : Type} (g : I → ℚ) (l : List I) :
    ∀ m : ℚ, m ≤ l.foldl (fun acc p => max acc (g p)) m := by
  induction l with
  | nil => intro m; simp
  | cons a tl ih =>
      intro m
      exact le_trans (le_max_left m (g a)) (ih (max m (g a)))

lemma mem_le_foldl_max {I : Type} (g : I → ℚ) (l : List I) (p : I)
    (hp : p ∈ l) : ∀ m : ℚ, g p ≤ l.foldl (fun acc q => max acc (g q)) m := by
  induction l with
  | nil => cases hp
  | cons a tl ih =>
      intro m
      rcases List.mem_cons.mp hp with h1 | h1
      · subst h1
        exact le_trans (le_max_right m (g p)) (le_foldl_max g tl _)
      · exact ih h1 _

lemma foldl_max_le_bound {I : Type} (g : I → ℚ) (l : List I) :
    ∀ m b : ℚ, m ≤ b → (∀ p ∈ l, g p ≤ b) →
      l.foldl (fun acc p => max acc (g p)) m ≤ b := by
  induction l with
  | nil => intro m b hm _; simpa using hm
  | cons a tl ih =>
      intro m b hm hall
      exact ih _ b (max_le hm (hall a (List.mem_cons_self a tl)))
        (fun p hp => hall p (List.mem_cons_of_mem a hp))

lemma foldl_nmax_num {I : Type} (g : I → ℚ) (l : List I) :
    ∀ m : ℚ, l.foldl (fun acc p => nmax acc (num (g p))) (num m) =
      num (l.foldl (fun acc p => max acc (g p)) m) := by
  induction l with
  | nil => intro m; rfl
  | cons a tl ih =>
      intro m
      simp only [List.foldl_cons]
      exact ih (max m (g a))

lemma foldl_nmax_ninf {I : Type} (g : I → ℚ) (l : List I) (hne : l ≠ [])
    (hnn : ∀ p ∈ l, 0 ≤ g p) :
    l.foldl (fun acc p => nmax acc (num (g p))) ninf =
      num (l.foldl (fun acc p => max acc (g p)) 0) := by
  cases l with
  | nil => exact absurd rfl hne
  | cons a tl =>
      simp only [List.foldl_cons]
      have h1 : nmax ninf (num (g a)) = num (g a) := rfl
      have h2 : max 0 (g a) = g a :=
        max_eq_right (hnn a (List.mem_cons_self a tl))
      rw [h1, h2, foldl_nmax_num]

lemma mem_idxList {x y z w i j k c : ℕ} (hi : i < x) (hj : j < y)
    (hk : k < z) (hc : c < w) : (i, j, k, c) ∈ idxList [x, y, z, w] := by
  unfold idxList
  simp only [List.getD, List.mem_flatMap, List.mem_map, List.mem_range]
  exact ⟨i, hi, j, hj, k, hk, c, hc, rfl⟩

lemma mem_idxList3 {x y z i j k : ℕ} (hi : i < x) (hj : j < y)
    (hk : k < z) : (i, j, k, 0) ∈ idxList [x, y, z] := by
  unfold idxList
  simp only [List.getD, List.mem_flatMap, List.mem_map, List.mem_range]
  exact ⟨i, hi, j, hj, k, hk, 0, by norm_num, rfl⟩

lemma spatialMaxQ_eq_foldl (f : ℕ → ℕ → ℕ → ℚ) (x y z : ℕ) :
    spatialMaxQ f x y z =
      (idxList [x, y, z]).foldl
        (fun acc p => max acc (f p.1 p.2.1 p.2.2.1)) 0 := by
  unfold spatialMaxQ
  rw [List.foldl_map]

lemma foldl_max_range3_const (v : ℚ) (acc : ℚ) (F : ℕ → ℕ × ℕ × ℕ × ℕ)
    (f : ℕ → ℕ → ℕ → ℚ) (hv : ∀ c, f (F c).1 (F c).2.1 (F c).2.2.1 = v) :
    ((List.range 3).map F).foldl
      (fun acc p => max acc (f p.1 p.2.1 p.2.2.1)) acc = max acc v := by
  rw [List.foldl_map]
  show max (max (max acc (f (F 0).1 (F 0).2.1 (F 0).2.2.1))
    (f (F 1).1 (F 1).2.1 (F 1).2.2.1)) (f (F 2).1 (F 2).2.1 (F 2).2.2.1)
    = max acc v
  rw [hv 0, hv 1, hv 2, max_assoc, max_self, max_assoc, max_self]

lemma foldl_max_range1_const (v : ℚ) (acc : ℚ) (F : ℕ → ℕ × ℕ × ℕ × ℕ)
    (f : ℕ → ℕ → ℕ → ℚ) (hv : ∀ c, f (F c).1 (F c).2.1 (F c).2.2.1 = v) :
    ((List.range 1).map F).foldl
      (fun acc p => max acc (f p.1 p.2.1 p.2.2.1)) acc = max acc v := by
  rw [List.foldl_map]
  show max acc (f (F 0).1 (F 0).2.1 (F 0).2.2.1) = max acc v
  rw [hv 0]

lemma idxfold_channels (f : ℕ → ℕ → ℕ → ℚ) (x y z : ℕ) (m : ℚ) :
    (idxList [x, y, z, 3]).foldl
      (fun acc p => max acc (f p.1 p.2.1 p.2.2.1)) m =
    (idxList [x, y, z]).foldl
      (fun acc p => max acc (f p.1 p.2.1 p.2.2.1)) m := by
  show ((List.range x).flatMap fun i => (List.range y).flatMap fun j =>
      (List.range z).flatMap fun k =>
        (List.range 3).map fun c => (i, j, k, c)).foldl
      (fun acc p => max acc (f p.1 p.2.1 p.2.2.1)) m =
    ((List.range x).flatMap fun i => (List.range y).flatMap fun j =>
      (List.range z).flatMap fun k =>
        (List.range 1).map fun c => (i, j, k, c)).foldl
      (fun acc p => max acc (f p.1 p.2.1 p.2.2.1)) m
  rw [foldl_over_flatMap, foldl_over_flatMap]
  apply List.foldl_ext
  intro a i _
  rw [foldl_over_flatMap, foldl_over_flatMap]
  apply List.foldl_ext
  intro b j _
  rw [foldl_over_flatMap, foldl_over_flatMap]
  apply List.foldl_ext
  intro c k _
  rw [foldl_max_range3_const (f i j k) c (fun w => (i, j, k, w)) f
    (fun _ => rfl)]
  rw [foldl_max_range1_const (f i j k) c (fun w => (i, j, k, w)) f
    (fun _ => rfl)]

lemma volMax_gray (f : ℕ → ℕ → ℕ → ℚ) (x y z : ℕ)
    (hx : 0 < x) (hy : 0 < y) (hz : 0 < z)
    (hnn : ∀ i j k : ℕ, 0 ≤ f i j k) :
    volMax ⟨[x, y, z, 3], fun i j k _ => num (f i j k)⟩ =
      num (spatialMaxQ f x y z) := by
  show (idxList [x, y, z, 3]).foldl
    (fun acc p => nmax acc (num (f p.1 p.2.1 p.2.2.1))) ninf = _
  have hne : idxList [x, y, z, 3] ≠ [] :=
    List.ne_nil_of_mem
      (@mem_idxList x y z 3 0 0 0 0 hx hy hz (by norm_num))
  rw [foldl_nmax_ninf _ _ hne (fun p _ => hnn _ _ _), idxfold_channels,
    spatialMaxQ_eq_foldl]

lemma prepLayer_gray (zf : Vol → ℕ × ℕ × ℕ → ℕ → Vol) (order x y z : ℕ)
    (f : ℕ → ℕ → ℕ → ℚ)
    (hzoom : ∀ v o, zf v (shape3 v) o = v) (hz3 : z ≠ 3)
    (hx : 0 < x) (hy : 0 < y) (hz : 0 < z)
    (hnn : ∀ i j k : ℕ, 0 ≤ f i j k)
    (hM : spatialMaxQ f x y z ≠ 0) :
    prepLayer zf (x, y, z) order ⟨[x, y, z], fun i j k _ => num (f i j k)⟩ =
      ⟨[x, y, z, 3],
        fun i j k _ => num (f i j k / spatialMaxQ f x y z)⟩ := by
  unfold prepLayer
  have h1 : (if lastDim (⟨[x, y, z],
        fun i j k _ => num (f i j k)⟩ : Vol) ≠ 3 then
        grayscale_to_rgb ⟨[x, y, z], fun i j k _ => num (f i j k)⟩
      else ⟨[x, y, z], fun i j k _ => num (f i j k)⟩) =
      ⟨[x, y, z, 3], fun i j k _ => num (f i j k)⟩ := by
    rw [if_pos (show lastDim (⟨[x, y, z],
      fun i j k _ => num (f i j k)⟩ : Vol) ≠ 3 from hz3)]
    rfl
  rw [h1]
  have h2 : zf ⟨[x, y, z, 3], fun i j k _ => num (f i j k)⟩ (x, y, z)
      order = ⟨[x, y, z, 3], fun i j k _ => num (f i j k)⟩ :=
    hzoom ⟨[x, y, z, 3], fun i j k _ => num (f i j k)⟩ order
  rw [h2]
  unfold normalizeVol
  rw [volMax_gray f x y z hx hy hz hnn]
  congr 1
  funext i j k c
  show ndiv (num (f i j k)) (num (spatialMaxQ f x y z)) = _
  simp [ndiv, hM]

lemma maskOverwrite_data (back layer : Vol) (i j k c : ℕ) (s : ℚ)
    (hcs : chanSum layer i j k = num s) :
    (maskOverwrite back layer).data i j k c =
      if s ≠ 0 then layer.data i j k c else back.data i j k c := by
  show (if (chanSum layer i j k).ne0 = true then layer.data i j k c
    else back.data i j k c) = _
  rw [hcs]
  by_cases hs : s = 0
  · rw [hs]
    norm_num [ne0]
  · simp [ne0, hs]

/-- C7: `overlap_volumes` processes layers back-to-front (the last
list element is composited first) and overwrites a destination voxel
exactly where the current layer's channel-sum is nonzero.  For two
same-shape single-channel volumes [A, B] (A the foreground, nonzero
only at voxel p and nonnegative; B the background, zero at p, positive
everywhere else), the output at p is A's self-max-normalized value and
at every other in-range voxel B's self-max-normalized value.  (The
layer depth z is required to differ from 3: a rank-3 layer with
`shape[-1] == 3` is treated as RGB by the code and never reaches the
grayscale path.) -/
theorem C7_compositing (zf : Vol → ℕ × ℕ × ℕ → ℕ → Vol) (order : ℕ)
    (x y z pi pj pk : ℕ) (fA fB : ℕ → ℕ → ℕ → ℚ) (c : ℕ)
    (hzoom : ∀ v o, zf v (shape3 v) o = v) (hz3 : z ≠ 3)
    (hpi : pi < x) (hpj : pj < y) (hpk : pk < z)
    (hAnn : ∀ i j k : ℕ, 0 ≤ fA i j k)
    (hA0 : ∀ i j k : ℕ, (i, j, k) ≠ (pi, pj, pk) → fA i j k = 0)
    (hAp : 0 < fA pi pj pk)
    (hBnn : ∀ i j k : ℕ, 0 ≤ fB i j k)
    (hBpos : ∀ i j k : ℕ, (i, j, k) ≠ (pi, pj, pk) → 0 < fB i j k) :
    (overlap_volumes zf
        [⟨[x, y, z], fun i j k _ => num (fA i j k)⟩,
         ⟨[x, y, z], fun i j k _ => num (fB i j k)⟩] true order).1.data
        pi pj pk c
      = num (fA pi pj pk / spatialMaxQ fA x y z)
    ∧ ∀ i j k : ℕ, i < x → j < y → k < z → (i, j, k) ≠ (pi, pj, pk) →
      (overlap_volumes zf
          [⟨[x, y, z], fun i j k _ => num (fA i j k)⟩,
           ⟨[x, y, z], fun i j k _ => num (fB i j k)⟩] true order).1.data
          i j k c
        = num (fB i j k / spatialMaxQ fB x y z) := by
  have hx : 0 < x := lt_of_le_of_lt (Nat.zero_le pi) hpi
  have hy : 0 < y := lt_of_le_of_lt (Nat.zero_le pj) hpj
  have hz : 0 < z := lt_of_le_of_lt (Nat.zero_le pk) hpk
  have hMA : 0 < spatialMaxQ fA x y z := by
    refine lt_of_lt_of_le hAp ?_
    rw [spatialMaxQ_eq_foldl]
    exact @mem_le_foldl_max (ℕ × ℕ × ℕ × ℕ)
      (fun p => fA p.1 p.2.1 p.2.2.1) (idxList [x, y, z])
      (pi, pj, pk, 0) (mem_idxList3 hpi hpj hpk) 0
  have hmaxs : maxSize
      [(⟨[x, y, z], fun i j k _ => num (fA i j k)⟩ : Vol),
       ⟨[x, y, z], fun i j k _ => num (fB i j k)⟩] = (x, y, z) := by
    simp [maxSize, shape3]
  have hloop : (overlap_volumes zf
      [⟨[x, y, z], fun i j k _ => num (fA i j k)⟩,
       ⟨[x, y, z], fun i j k _ => num (fB i j k)⟩] true order).1 =
      overlap_step zf (x, y, z) order
        (overlap_step zf (x, y, z) order (zerosVol (x, y, z))
          ⟨[x, y, z], fun i j k _ => num (fB i j k)⟩)
        ⟨[x, y, z], fun i j k _ => num (fA i j k)⟩ := by
    have hbase : (overlap_volumes zf
        [(⟨[x, y, z], fun i j k _ => num (fA i j k)⟩ : Vol),
         ⟨[x, y, z], fun i j k _ => num (fB i j k)⟩] true order).1 =
        overlap_step zf (maxSize
          [(⟨[x, y, z], fun i j k _ => num (fA i j k)⟩ : Vol),
           ⟨[x, y, z], fun i j k _ => num (fB i j k)⟩]) order
          (overlap_step zf (maxSize
            [(⟨[x, y, z], fun i j k _ => num (fA i j k)⟩ : Vol),
             ⟨[x, y, z], fun i j k _ => num (fB i j k)⟩]) order
            (zerosVol (maxSize
              [(⟨[x, y, z], fun i j k _ => num (fA i j k)⟩ : Vol),
               ⟨[x, y, z], fun i j k _ => num (fB i j k)⟩]))
            ⟨[x, y, z], fun i j k _ => num (fB i j k)⟩)
          ⟨[x, y, z], fun i j k _ => num (fA i j k)⟩ := rfl
    rw [hmaxs] at hbase
    exact hbase
  have hprepA := prepLayer_gray zf order x y z fA hzoom hz3 hx hy hz hAnn
    (ne_of_gt hMA)
  constructor
  · rw [hloop]
    unfold overlap_step
    rw [hprepA]
    rw [maskOverwrite_data _
      ⟨[x, y, z, 3],
        fun i j k _ => num (fA i j k / spatialMaxQ fA x y z)⟩ pi pj pk c
      (fA pi pj pk / spatialMaxQ fA x y z +
       fA pi pj pk / spatialMaxQ fA x y z +
       fA pi pj pk / spatialMaxQ fA x y z) rfl]
    have hw : 0 < fA pi pj pk / spatialMaxQ fA x y z := div_pos hAp hMA
    rw [if_pos (by intro h0; linarith)]
  · intro i j k hi hj hk hne
    have hMB : 0 < spatialMaxQ fB x y z := by
      refine lt_of_lt_of_le (hBpos i j k hne) ?_
      rw [spatialMaxQ_eq_foldl]
      exact @mem_le_foldl_max (ℕ × ℕ × ℕ × ℕ)
        (fun p => fB p.1 p.2.1 p.2.2.1) (idxList [x, y, z])
        (i, j, k, 0) (mem_idxList3 hi hj hk) 0
    rw [hloop]
    unfold overlap_step
    rw [hprepA]
    rw [maskOverwrite_data _
      ⟨[x, y, z, 3],
        fun i j k _ => num (fA i j k / spatialMaxQ fA x y z)⟩ i j k c
      (fA i j k / spatialMaxQ fA x y z +
       fA i j k / spatialMaxQ fA x y z +
       fA i j k / spatialMaxQ fA x y z) rfl]
    rw [hA0 i j k hne]
    rw [if_neg (by norm_num)]
    rw [prepLayer_gray zf order x y z fB hzoom hz3 hx hy hz hBnn
      (ne_of_gt hMB)]
    rw [maskOverwrite_data _
      ⟨[x, y, z, 3],
        fun i j k _ => num (fB i j k / spatialMaxQ fB x y z)⟩ i j k c
      (fB i j k / spatialMaxQ fB x y z +
       fB i j k / spatialMaxQ fB x y z +
       fB i j k / spatialMaxQ fB x y z) rfl]
    have hw : 0 < fB i j k / spatialMaxQ fB x y z :=
      div_pos (hBpos i j k hne) hMB
    rw [if_pos (by intro h0; linarith)]

/-- Concrete foreground intensity: 1 at voxel (0,0,0), 0 elsewhere. -/
def fAW : ℕ → ℕ → ℕ → ℚ := fun i j k =>
  if i = 0 ∧ j = 0 ∧ k = 0 then 1 else 0

/-- Concrete background intensity: 0 at voxel (0,0,0), 2 elsewhere. -/
def fBW : ℕ → ℕ → ℕ → ℚ := fun i j k =>
  if i = 0 ∧ j = 0 ∧ k = 0 then 0 else 2

/-- Witness for C7 at a concrete input: shape (1,1,2), foreground
nonzero only at (0,0,0), background nonzero only elsewhere. -/
theorem C7_witness :
    (overlap_volumes zoomId
        [⟨[1, 1, 2], fun i j k _ => num (fAW i j k)⟩,
         ⟨[1, 1, 2], fun i j k _ => num (fBW i j k)⟩] true 0).1.data
        0 0 0 0
      = num (fAW 0 0 0 / spatialMaxQ fAW 1 1 2)
    ∧ ∀ i j k : ℕ, i < 1 → j < 1 → k < 2 → (i, j, k) ≠ (0, 0, 0) →
      (overlap_volumes zoomId
          [⟨[1, 1, 2], fun i j k _ => num (fAW i j k)⟩,
           ⟨[1, 1, 2], fun i j k _ => num (fBW i j k)⟩] true 0).1.data
          i j k 0
        = num (fBW i j k / spatialMaxQ fBW 1 1 2) :=
  C7_compositing zoomId 0 1 1 2 0 0 0 fAW fBW 0
    (fun _ _ => rfl) (by decide) (by decide) (by decide) (by decide)
    (by
      intro i j k
      unfold fAW
      split <;> norm_num)
    (by
      intro i j k h
      have hcond : ¬(i = 0 ∧ j = 0 ∧ k = 0) := by
        rintro ⟨h1, h2, h3⟩
        exact h (by rw [h1, h2, h3])
      simp [fAW, hcond])
    (by norm_num [fAW])
    (by
      intro i j k
      unfold fBW
      split <;> norm_num)
    (by
      intro i j k h
      have hcond : ¬(i = 0 ∧ j = 0 ∧ k = 0) := by
        rintro ⟨h1, h2, h3⟩
        exact h (by rw [h1, h2, h3])
      simp [fBW, hcond])

/-- C9 (counterexample): an all-zero layer does NOT make
`overlap_volumes` fail fast — the call returns normally (the function
is total) and the 0/0 of the self-normalization silently propagates
NaN into the returned volume. -/
theorem C9_counterexample :
    (overlap_volumes zoomId [⟨[1, 1, 1], fun _ _ _ _ => num 0⟩]
      true 0).1.data 0 0 0 0 = nan := rfl

/-- C9 (amended): passing an all-zero layer to `overlap_volumes`
raises no error; the layer's self-max is 0, every normalized entry is
the NaN of 0/0, the NaN channel-sum makes every voxel of the layer
non-transparent (NaN ≠ 0 is true), and so NaN is written over every
in-range voxel of the output. -/
theorem C9_amended (zf : Vol → ℕ × ℕ × ℕ → ℕ → Vol)
    (order x y z i j k c : ℕ) (f : ℕ → ℕ → ℕ → ℚ)
    (hzoom : ∀ v o, zf v (shape3 v) o = v) (hz3 : z ≠ 3)
    (hf : ∀ i j k : ℕ, f i j k = 0)
    (hx : 0 < x) (hy : 0 < y) (hz : 0 < z)
    (_hi : i < x) (_hj : j < y) (_hk : k < z) :
    (overlap_volumes zf [⟨[x, y, z], fun i j k _ => num (f i j k)⟩]
      true order).1.data i j k c = nan := by
  have hmaxs : maxSize
      [(⟨[x, y, z], fun i j k _ => num (f i j k)⟩ : Vol)] = (x, y, z) := by
    simp [maxSize, shape3]
  have hbase : (overlap_volumes zf
      [⟨[x, y, z], fun i j k _ => num (f i j k)⟩] true order).1 =
      overlap_step zf
        (maxSize [(⟨[x, y, z], fun i j k _ => num (f i j k)⟩ : Vol)]) order
        (zerosVol (maxSize
          [(⟨[x, y, z], fun i j k _ => num (f i j k)⟩ : Vol)]))
        ⟨[x, y, z], fun i j k _ => num (f i j k)⟩ := rfl
  rw [hmaxs] at hbase
  have hM0 : spatialMaxQ f x y z = 0 := by
    apply le_antisymm
    · rw [spatialMaxQ_eq_foldl]
      exact foldl_max_le_bound _ _ 0 0 le_rfl
        (fun p _ => le_of_eq (hf _ _ _))
    · rw [spatialMaxQ_eq_foldl]
      exact le_foldl_max _ _ 0
  have hprep : prepLayer zf (x, y, z) order
      ⟨[x, y, z], fun i j k _ => num (f i j k)⟩ =
      ⟨[x, y, z, 3], fun _ _ _ _ => nan⟩ := by
    unfold prepLayer
    have h1 : (if lastDim (⟨[x, y, z],
          fun i j k _ => num (f i j k)⟩ : Vol) ≠ 3 then
          grayscale_to_rgb ⟨[x, y, z], fun i j k _ => num (f i j k)⟩
        else ⟨[x, y, z], fun i j k _ => num (f i j k)⟩) =
        ⟨[x, y, z, 3], fun i j k _ => num (f i j k)⟩ := by
      rw [if_pos (show lastDim (⟨[x, y, z],
        fun i j k _ => num (f i j k)⟩ : Vol) ≠ 3 from hz3)]
      rfl
    rw [h1]
    have h2 : zf ⟨[x, y, z, 3], fun i j k _ => num (f i j k)⟩ (x, y, z)
        order = ⟨[x, y, z, 3], fun i j k _ => num (f i j k)⟩ :=
      hzoom ⟨[x, y, z, 3], fun i j k _ => num (f i j k)⟩ order
    rw [h2]
    unfold normalizeVol
    rw [volMax_gray f x y z hx hy hz (fun a b c => le_of_eq (hf a b c).symm),
      hM0]
    congr 1
    funext a b d e
    show ndiv (num (f a b d)) (num 0) = nan
    rw [hf a b d]
    rfl
  rw [hbase]
  unfold overlap_step
  rw [hprep]
  rfl

/-- Witness for C9's amended statement at a concrete input distinct
from the counterexample: shape (1,1,2), voxel (0,0,1), channel 2. -/
theorem C9_amended_witness :
    (overlap_volumes zoomId
      [⟨[1, 1, 2], fun i j k _ => num ((fun _ _ _ => (0 : ℚ)) i j k)⟩]
      true 0).1.data 0 0 1 2 = nan :=
  C9_amended zoomId 0 1 1 2 0 0 1 2 (fun _ _ _ => 0) (fun _ _ => rfl)
    (by decide) (fun _ _ _ => rfl) (by decide) (by decide) (by decide)
    (by decide) (by decide) (by decide)
